import Mathlib

/-!
Shallow embedding of the live-update engine of `src/www/common.ts`
(class `IonicDeployImpl` and its helpers).

External collaborators (the cordova bridge, the webview, the file system and
the network) are modelled as explicit inputs:
  * results of `fetch` / file-system calls are passed in as `Except Unit _`
    values (`Except.error` models a rejected promise / thrown exception);
  * the webview base path check `_isRunningVersion` is passed in as a
    predicate `running : String → Bool` (the source computes
    `currentPath.includes(versionId)` on the externally obtained base path);
  * `_savePrefs` only persists the in-memory preferences object, so it is
    the identity on the modelled state.

The JS object `prefs.updates` (versionId → update) is modelled as a
`List IAvailableUpdate`: the source only ever inserts with
`prefs.updates[u.versionId] = u` (common.ts line 413), so the key is always
the record's own `versionId`; key lookup/membership/deletion are modelled by
`versionId` search in insertion order, matching JS object key order.

Manifest-entry comparison in the source goes through `JSON.stringify`
equality of `{href, size}` records; it is modelled as structural equality.
-/

namespace IonicDeploy

inductive UpdateState where
  | Available
  | Pending
  | Ready
deriving DecidableEq, Repr

structure ManifestFileEntry where
  href : String
  size : Nat
deriving DecidableEq, Repr

structure IAvailableUpdate where
  binaryVersionCode : String
  binaryVersionName : String
  channel : String
  state : UpdateState
  lastUsed : String
  url : String
  versionId : String
  buildId : String
deriving DecidableEq, Repr

structure ISavedPreferences where
  binaryVersionCode : String
  binaryVersionName : String
  channel : String
  maxVersions : Nat
  currentVersionId : Option String
  currentBuildId : Option String
  availableUpdate : Option IAvailableUpdate
  updates : List IAvailableUpdate
deriving DecidableEq, Repr

/-- Lookup `prefs.updates[versionId]` (JS object property access). -/
def lookupUpdate (prefs : ISavedPreferences) (versionId : String) : Option IAvailableUpdate :=
  prefs.updates.find? (fun u => u.versionId == versionId)

/-- `versionId in prefs.updates` (JS `in` test on object keys). -/
def hasVersion (prefs : ISavedPreferences) (versionId : String) : Bool :=
  prefs.updates.any (fun u => u.versionId == versionId)

/-- JS truthiness of the optional string fields of a check-device response. -/
def truthy : Option String → Bool
  | some s => s ≠ ""
  | none => false

/-- `data` of a successful check-device response (common.ts lines 201-216). -/
structure CheckDeviceResp where
  available : Bool
  url : Option String
  snapshot : Option String
  build : Option String
deriving DecidableEq, Repr

/-- `checkForUpdate` (common.ts lines 158-220), restricted to a 2xx response:
when the response carries `available` and truthy `url`/`snapshot`/`build`,
it overwrites `prefs.availableUpdate` with a fresh record in state
`Available`; otherwise the preferences are untouched.  `now` is the value of
`new Date().toISOString()`. -/
def checkForUpdate (now : String) (resp : CheckDeviceResp) (prefs : ISavedPreferences) :
    ISavedPreferences :=
  if resp.available && truthy resp.url && truthy resp.snapshot && truthy resp.build then
    { prefs with
      availableUpdate := some
        { binaryVersionCode := prefs.binaryVersionCode
          binaryVersionName := prefs.binaryVersionName
          channel := prefs.channel
          state := UpdateState.Available
          lastUsed := now
          url := resp.url.getD ""
          versionId := resp.snapshot.getD ""
          buildId := resp.build.getD "" } }
  else prefs

/-- Return value of `_diffManifests`. -/
structure DiffResult where
  diffManifest : List ManifestFileEntry
  sameManifest : List ManifestFileEntry
  downloaded : Nat
deriving DecidableEq, Repr

/-- `_diffManifests` (common.ts lines 349-384).
`bundledFetch` is the result of fetching `pro-manifest.json` from the webview
server; `filesInPath` is the result of `_recursiveFilesInPath(filePath)`
(the recursive listing of the snapshot directory).  A failure of either one
is caught by the surrounding `try`/`catch`, which returns the whole
`newManifest` as `diffManifest` with nothing pre-satisfied.  `size` is the
total byte count, used by the source only for the progress callback. -/
def _diffManifests (newManifest : List ManifestFileEntry)
    (oldManifest : Option (List ManifestFileEntry))
    (bundledFetch : Except Unit (List ManifestFileEntry))
    (filesInPath : Except Unit (List String))
    (size : Nat) : DiffResult :=
  match bundledFetch, filesInPath with
  | Except.ok fetched, Except.ok files =>
      let bundledManifest := oldManifest.getD fetched
      let diffManifest0 := newManifest.filter (fun entry => !(bundledManifest.contains entry))
      let sameManifest0 := newManifest.filter (fun entry => bundledManifest.contains entry)
      let _ := size
      { diffManifest := diffManifest0.filter (fun row => !(files.contains row.href))
        sameManifest := sameManifest0.filter (fun row => !(files.contains row.href))
        downloaded :=
          ((sameManifest0.filter (fun row => files.contains row.href)).map (fun r => r.size)).sum
            + ((diffManifest0.filter (fun row => files.contains row.href)).map (fun r => r.size)).sum }
  | _, _ =>
      { diffManifest := newManifest, sameManifest := [], downloaded := 0 }

/-- The batching loop of `_downloadFilesFromManifest` (common.ts lines
277-292): `downloads` is the accumulator array; when it already holds
`maxBatch` entries the batch is awaited (flushed) before the next entry is
pushed; a final non-empty batch is awaited after the loop. -/
def downloadBatches (maxBatch : Nat) :
    List ManifestFileEntry → List ManifestFileEntry → List (List ManifestFileEntry)
  | [], downloads => if downloads.isEmpty then [] else [downloads]
  | entry :: rest, downloads =>
      if maxBatch ≤ downloads.length then
        downloads :: downloadBatches maxBatch rest [entry]
      else
        downloadBatches maxBatch rest (downloads ++ [entry])

/-- `_downloadFilesFromManifest` (common.ts lines 256-294), viewed through
its observable download schedule: the list of sequential batches, each batch
being the group of transfers started concurrently and awaited together
(`maxBatch = 20`). -/
def _downloadFilesFromManifest (manifest : List ManifestFileEntry) :
    List (List ManifestFileEntry) :=
  downloadBatches 20 manifest []

/-- `this.isUpdateForCurrentBinary(update)` (common.ts lines 459-465). -/
def isUpdateForCurrentBinary (prefs : ISavedPreferences) (update : IAvailableUpdate) : Bool :=
  update.binaryVersionName == prefs.binaryVersionName
    && update.binaryVersionCode == prefs.binaryVersionCode

/-- `this.isUpdateCurrentlyInstalled(update)` (common.ts lines 467-469). -/
def isUpdateCurrentlyInstalled (prefs : ISavedPreferences) (update : IAvailableUpdate) : Bool :=
  prefs.currentVersionId == some update.versionId

/-- `deleteVersionById` (common.ts lines 583-593): removes the preference
entry, saves, removes the snapshot directory (`_cleanSnapshotDir` swallows a
missing-directory error), and returns `true` unconditionally. -/
def deleteVersionById (versionId : String) (prefs : ISavedPreferences) :
    ISavedPreferences × Bool :=
  ({ prefs with updates := prefs.updates.eraseP (fun u => u.versionId == versionId) }, true)

/-- One iteration of the `cleanupStaleVersions` loop body
(common.ts lines 475-493). -/
def staleStep (running : String → Bool) (p : ISavedPreferences) (update : IAvailableUpdate) :
    ISavedPreferences :=
  if !(isUpdateForCurrentBinary p update) && !(running update.versionId) then
    let p1 := if isUpdateCurrentlyInstalled p update then
        { p with currentVersionId := none }
      else p
    (deleteVersionById update.versionId p1).1
  else p

/-- `cleanupStaleVersions` (common.ts lines 471-494): iterates over the
snapshot of stored updates taken before the loop, deleting every update
built for a different binary and not currently served by the webview,
clearing `currentVersionId` when the deleted update was the installed one. -/
def cleanupStaleVersions (running : String → Bool) (prefs : ISavedPreferences) :
    ISavedPreferences :=
  prefs.updates.foldl (staleStep running) prefs

/-- The stored updates that are not the currently installed version
(the `.filter` step of `cleanupVersions`, common.ts line 613). -/
def nonActiveUpdates (prefs : ISavedPreferences) : List IAvailableUpdate :=
  prefs.updates.filter (fun a => !(isUpdateCurrentlyInstalled prefs a))

/-- `cleanupVersions` (common.ts lines 605-621): stale cleanup, then sort the
non-installed updates ascending by `lastUsed` (JS stable sort with a
`localeCompare` comparator, modelled as lexicographic string order), reverse
to descending, and delete everything beyond the first `maxVersions`. -/
def cleanupVersions (running : String → Bool) (prefs0 : ISavedPreferences) :
    ISavedPreferences :=
  let prefs := cleanupStaleVersions running prefs0
  let updatesToDelete :=
    (((nonActiveUpdates prefs).insertionSort
        (fun a b => a.lastUsed ≤ b.lastUsed)).reverse).drop prefs.maxVersions
  updatesToDelete.foldl (fun p u => (deleteVersionById u.versionId p).1) prefs

/-- JS object insertion `prefs.updates[u.versionId] = u`: overwrite in place
when the key exists, append otherwise. -/
def setUpdate (updates : List IAvailableUpdate) (u : IAvailableUpdate) :
    List IAvailableUpdate :=
  if updates.any (fun w => w.versionId == u.versionId) then
    updates.map (fun w => if w.versionId == u.versionId then u else w)
  else updates ++ [u]

/-- `extractUpdate` (common.ts lines 402-416): requires a Pending available
update, marks it Ready and stores it under `updates[versionId]`. -/
def extractUpdate (prefs : ISavedPreferences) : ISavedPreferences × Bool :=
  match prefs.availableUpdate with
  | some au =>
      if au.state = UpdateState.Pending then
        let ready := { au with state := UpdateState.Ready }
        ({ prefs with
            availableUpdate := some ready
            updates := setUpdate prefs.updates ready }, true)
      else (prefs, false)
  | none => (prefs, false)

/-- First-occurrence string replacement, the semantics of the JS
`String.prototype.replace` call with a string pattern
(common.ts line 229). -/
def replaceFirst (s pat rep : String) : String :=
  match s.splitOn pat with
  | x :: y :: rest => x ++ rep ++ String.intercalate pat (y :: rest)
  | _ => s

/-- External-world inputs consumed by one `downloadUpdate` run. -/
structure DownloadEnv where
  fetchManifest : String → Except Unit (String × List ManifestFileEntry)
  bundledManifestFetch : Except Unit (List ManifestFileEntry)
  filesInPath : Except Unit (List String)
  downloadOk : ManifestFileEntry → Bool
  prepareOk : Bool

/-- `downloadUpdate` (common.ts lines 222-254).  With no available update or
one whose state is not `Available`, it returns `false` at once.  Otherwise
it fetches the new manifest (a failure propagates), optionally fetches the
current version's manifest (a failure is swallowed), diffs, prepares the
update directory and downloads the diffed files (a failure of either
propagates, leaving the preferences untouched since the state is only
mutated afterwards), and finally marks the update `Pending`. -/
def downloadUpdate (env : DownloadEnv) (prefs : ISavedPreferences) :
    Except Unit (ISavedPreferences × Bool) :=
  match prefs.availableUpdate with
  | some au =>
      if au.state = UpdateState.Available then
        match env.fetchManifest au.url with
        | Except.error e => Except.error e
        | Except.ok fetched =>
            let manifestJson := fetched.2
            let currentManifestJson : Option (List ManifestFileEntry) :=
              match prefs.currentVersionId with
              | some currentVersionId =>
                  let newUrl := replaceFirst au.url au.versionId currentVersionId
                  if newUrl ≠ au.url then
                    match env.fetchManifest newUrl with
                    | Except.ok r => some r.2
                    | Except.error _ => none
                  else none
              | none => none
            let size := (manifestJson.map (fun i => i.size)).sum
            let d := _diffManifests manifestJson currentManifestJson
              env.bundledManifestFetch env.filesInPath size
            if !env.prepareOk then Except.error ()
            else if !(d.diffManifest.all env.downloadOk) then Except.error ()
            else
              Except.ok
                ({ prefs with availableUpdate := some { au with state := UpdateState.Pending } },
                  true)
      else Except.ok (prefs, false)
  | none => Except.ok (prefs, false)

/-- The commit block at the top of `reloadApp` (common.ts lines 421-427). -/
def commitReadyUpdate (prefs : ISavedPreferences) : ISavedPreferences :=
  match prefs.availableUpdate with
  | some au =>
      if au.state = UpdateState.Ready then
        { prefs with
          currentVersionId := some au.versionId
          currentBuildId := some au.buildId
          availableUpdate := none }
      else prefs
  | none => prefs

/-- Observable outcome of `reloadApp`: the final preferences, the returned
boolean, whether `Ionic.WebView.setServerBasePath` was invoked, and whether
the `onIonicProReady` channel was fired. -/
structure ReloadResult where
  prefs : ISavedPreferences
  result : Bool
  redirected : Bool
  readyFired : Bool
deriving Repr

/-- `reloadApp` (common.ts lines 418-456).  `running v` models
`await this._isRunningVersion(v)` (whether the webview base path contains
`v`). -/
def reloadApp (running : String → Bool) (prefs0 : ISavedPreferences) : ReloadResult :=
  let prefs := commitReadyUpdate prefs0
  match prefs.currentVersionId with
  | some currentVersionId =>
      if running currentVersionId then
        { prefs := cleanupVersions running prefs
          result := false, redirected := false, readyFired := true }
      else if !(hasVersion prefs currentVersionId) then
        { prefs := prefs, result := false, redirected := false, readyFired := true }
      else
        { prefs := prefs, result := true, redirected := true, readyFired := false }
  | none =>
      { prefs := prefs, result := false, redirected := false, readyFired := true }

/-- Position of an `availableUpdate` value along the lifecycle
Available → Pending → Ready → cleared. -/
def updateStateRank : UpdateState → Nat
  | UpdateState.Available => 0
  | UpdateState.Pending => 1
  | UpdateState.Ready => 2

def availableUpdateRank : Option IAvailableUpdate → Nat
  | none => 3
  | some u => updateStateRank u.state

/-- A state-machine operation other than `checkForUpdate`, together with the
external-world inputs it consumes. -/
inductive DeployOp where
  | download (env : DownloadEnv)
  | extract
  | reload (running : String → Bool)

/-- Effect of one operation on the preferences (a thrown `downloadUpdate`
leaves the in-memory preferences as they were, since the source mutates the
state only after every await has succeeded). -/
def applyOp (prefs : ISavedPreferences) : DeployOp → ISavedPreferences
  | DeployOp.download env =>
      match downloadUpdate env prefs with
      | Except.ok r => r.1
      | Except.error _ => prefs
  | DeployOp.extract => (extractUpdate prefs).1
  | DeployOp.reload running => (reloadApp running prefs).prefs

def runOps (prefs : ISavedPreferences) (ops : List DeployOp) : ISavedPreferences :=
  ops.foldl applyOp prefs

/-! ## Concrete states used to instantiate theorems -/

def nowStamp : String := "2024-06-01T00:00:00.000Z"

def pendingUpdate : IAvailableUpdate :=
  { binaryVersionCode := "100", binaryVersionName := "1.0.0", channel := "Production",
    state := UpdateState.Pending, lastUsed := "2024-05-01", url := "https://api.example.com/vP",
    versionId := "vP", buildId := "bP" }

def pendingPrefs : ISavedPreferences :=
  { binaryVersionCode := "100", binaryVersionName := "1.0.0", channel := "Production",
    maxVersions := 3, currentVersionId := none, currentBuildId := none,
    availableUpdate := some pendingUpdate, updates := [] }

def respAvailable : CheckDeviceResp :=
  { available := true, url := some "https://api.example.com/vNew",
    snapshot := some "vNew", build := some "bNew" }

/-- An environment in which every external call fails. -/
def failEnv : DownloadEnv :=
  { fetchManifest := fun _ => Except.error (), bundledManifestFetch := Except.error (),
    filesInPath := Except.error (), downloadOk := fun _ => false, prepareOk := false }


def readyUpdate : IAvailableUpdate :=
  { binaryVersionCode := "100", binaryVersionName := "1.0.0", channel := "Production",
    state := UpdateState.Ready, lastUsed := "2024-05-02", url := "https://api.example.com/vR",
    versionId := "vR", buildId := "bR" }

def readyPrefs : ISavedPreferences :=
  { binaryVersionCode := "100", binaryVersionName := "1.0.0", channel := "Production",
    maxVersions := 3, currentVersionId := none, currentBuildId := none,
    availableUpdate := some readyUpdate, updates := [readyUpdate] }

def matchedActive : IAvailableUpdate :=
  { binaryVersionCode := "100", binaryVersionName := "1.0.0", channel := "Production",
    state := UpdateState.Ready, lastUsed := "2020-01-01", url := "https://api.example.com/vA",
    versionId := "vA", buildId := "bA" }

def otherStored : IAvailableUpdate :=
  { binaryVersionCode := "100", binaryVersionName := "1.0.0", channel := "Production",
    state := UpdateState.Ready, lastUsed := "2024-03-03", url := "https://api.example.com/vB",
    versionId := "vB", buildId := "bB" }

/-- The currently-installed version is the oldest stored one by `lastUsed`
and `maxVersions = 0`, so only the explicit active-version exclusion can
keep it. -/
def activePrefs : ISavedPreferences :=
  { binaryVersionCode := "100", binaryVersionName := "1.0.0", channel := "Production",
    maxVersions := 0, currentVersionId := some matchedActive.versionId,
    currentBuildId := none, availableUpdate := none,
    updates := [matchedActive, otherStored] }

def staleInstalledUpdate : IAvailableUpdate :=
  { binaryVersionCode := "100", binaryVersionName := "1.0.0", channel := "Production",
    state := UpdateState.Ready, lastUsed := "2024-05-05", url := "https://api.example.com/vS",
    versionId := "vS", buildId := "bS" }

/-- Preferences after a binary upgrade to 2.0.0: the installed update was
built for binary 1.0.0 and the webview is not serving it. -/
def stalePrefs : ISavedPreferences :=
  { binaryVersionCode := "200", binaryVersionName := "2.0.0", channel := "Production",
    maxVersions := 3, currentVersionId := some staleInstalledUpdate.versionId,
    currentBuildId := none, availableUpdate := none,
    updates := [staleInstalledUpdate] }


instance : IsTotal IAvailableUpdate (fun a b => a.lastUsed ≤ b.lastUsed) :=
  ⟨fun a b => le_total a.lastUsed b.lastUsed⟩

instance : IsTrans IAvailableUpdate (fun a b => a.lastUsed ≤ b.lastUsed) :=
  ⟨fun _ _ _ hab hbc => le_trans hab hbc⟩

def evictActive : IAvailableUpdate :=
  { binaryVersionCode := "100", binaryVersionName := "1.0.0", channel := "Production",
    state := UpdateState.Ready, lastUsed := "2020-01-01", url := "https://api.example.com/e0",
    versionId := "e0", buildId := "b0" }

def evictA : IAvailableUpdate :=
  { binaryVersionCode := "100", binaryVersionName := "1.0.0", channel := "Production",
    state := UpdateState.Ready, lastUsed := "2021-01-01", url := "https://api.example.com/e1",
    versionId := "e1", buildId := "b1" }

def evictB : IAvailableUpdate :=
  { binaryVersionCode := "100", binaryVersionName := "1.0.0", channel := "Production",
    state := UpdateState.Ready, lastUsed := "2022-01-01", url := "https://api.example.com/e2",
    versionId := "e2", buildId := "b2" }

def evictC : IAvailableUpdate :=
  { binaryVersionCode := "100", binaryVersionName := "1.0.0", channel := "Production",
    state := UpdateState.Ready, lastUsed := "2023-01-01", url := "https://api.example.com/e3",
    versionId := "e3", buildId := "b3" }

/-- `maxVersions = 2`, three non-active installed updates with distinct
`lastUsed`, and an active version older than all of them. -/
def evictPrefs : ISavedPreferences :=
  { binaryVersionCode := "100", binaryVersionName := "1.0.0", channel := "Production",
    maxVersions := 2, currentVersionId := some evictActive.versionId,
    currentBuildId := none, availableUpdate := none,
    updates := [evictActive, evictA, evictB, evictC] }

/-! ## Theorems -/

theorem staleStep_availableUpdate (running : String → Bool) (p : ISavedPreferences)
    (u : IAvailableUpdate) : (staleStep running p u).availableUpdate = p.availableUpdate := by
  unfold staleStep deleteVersionById
  split
  · split <;> rfl
  · rfl

theorem staleStep_currentBuildId (running : String → Bool) (p : ISavedPreferences)
    (u : IAvailableUpdate) : (staleStep running p u).currentBuildId = p.currentBuildId := by
  unfold staleStep deleteVersionById
  split
  · split <;> rfl
  · rfl

theorem staleStep_binary (running : String → Bool) (p : ISavedPreferences)
    (u : IAvailableUpdate) :
    (staleStep running p u).binaryVersionName = p.binaryVersionName
      ∧ (staleStep running p u).binaryVersionCode = p.binaryVersionCode := by
  unfold staleStep deleteVersionById
  refine ⟨?_, ?_⟩ <;> (split; · split <;> rfl
                       · rfl)

theorem foldl_staleStep_availableUpdate (running : String → Bool)
    (l : List IAvailableUpdate) :
    ∀ p : ISavedPreferences, (l.foldl (staleStep running) p).availableUpdate
      = p.availableUpdate := by
  induction l with
  | nil => intro p; rfl
  | cons a t ih => intro p; rw [List.foldl_cons, ih, staleStep_availableUpdate]

theorem foldl_staleStep_currentBuildId (running : String → Bool)
    (l : List IAvailableUpdate) :
    ∀ p : ISavedPreferences, (l.foldl (staleStep running) p).currentBuildId
      = p.currentBuildId := by
  induction l with
  | nil => intro p; rfl
  | cons a t ih => intro p; rw [List.foldl_cons, ih, staleStep_currentBuildId]

theorem foldl_delete_availableUpdate (l : List IAvailableUpdate) :
    ∀ p : ISavedPreferences,
      (l.foldl (fun p u => (deleteVersionById u.versionId p).1) p).availableUpdate
        = p.availableUpdate := by
  induction l with
  | nil => intro p; rfl
  | cons a t ih => intro p; rw [List.foldl_cons, ih]; rfl

theorem foldl_delete_currentBuildId (l : List IAvailableUpdate) :
    ∀ p : ISavedPreferences,
      (l.foldl (fun p u => (deleteVersionById u.versionId p).1) p).currentBuildId
        = p.currentBuildId := by
  induction l with
  | nil => intro p; rfl
  | cons a t ih => intro p; rw [List.foldl_cons, ih]; rfl

theorem cleanupStaleVersions_availableUpdate (running : String → Bool)
    (prefs : ISavedPreferences) :
    (cleanupStaleVersions running prefs).availableUpdate = prefs.availableUpdate :=
  foldl_staleStep_availableUpdate running prefs.updates prefs

theorem cleanupStaleVersions_currentBuildId (running : String → Bool)
    (prefs : ISavedPreferences) :
    (cleanupStaleVersions running prefs).currentBuildId = prefs.currentBuildId :=
  foldl_staleStep_currentBuildId running prefs.updates prefs

theorem cleanupVersions_availableUpdate (running : String → Bool)
    (prefs : ISavedPreferences) :
    (cleanupVersions running prefs).availableUpdate = prefs.availableUpdate := by
  simp only [cleanupVersions]
  rw [foldl_delete_availableUpdate, cleanupStaleVersions_availableUpdate]

theorem cleanupVersions_currentBuildId (running : String → Bool)
    (prefs : ISavedPreferences) :
    (cleanupVersions running prefs).currentBuildId = prefs.currentBuildId := by
  simp only [cleanupVersions]
  rw [foldl_delete_currentBuildId, cleanupStaleVersions_currentBuildId]

theorem downloadUpdate_guard_false (env : DownloadEnv) (prefs : ISavedPreferences)
    (h : prefs.availableUpdate = none
        ∨ ∃ u, prefs.availableUpdate = some u ∧ u.state ≠ UpdateState.Available) :
    downloadUpdate env prefs = Except.ok (prefs, false) := by
  rcases h with h | ⟨u, h, hs⟩
  · simp [downloadUpdate, h]
  · simp [downloadUpdate, h, hs]

theorem ite_error_or_ok {α : Type} (c1 c2 : Bool) (x : α) :
    (if c1 = true then Except.error () else if c2 = true then Except.error () else Except.ok x)
        = (Except.error () : Except Unit α)
      ∨ (if c1 = true then Except.error () else if c2 = true then Except.error ()
          else Except.ok x) = (Except.ok x : Except Unit α) := by
  cases c1 <;> cases c2 <;> simp

theorem downloadUpdate_available_shape (env : DownloadEnv) (prefs : ISavedPreferences)
    (au : IAvailableUpdate) (hau : prefs.availableUpdate = some au)
    (hs : au.state = UpdateState.Available) :
    downloadUpdate env prefs = Except.error ()
      ∨ downloadUpdate env prefs
          = Except.ok
              ({ prefs with availableUpdate := some { au with state := UpdateState.Pending } },
                true) := by
  simp only [downloadUpdate, hau, hs, reduceIte]
  cases hf : env.fetchManifest au.url with
  | error e =>
      cases e
      exact Or.inl rfl
  | ok r =>
      exact ite_error_or_ok _ _ _

theorem reloadApp_availableUpdate (running : String → Bool) (prefs : ISavedPreferences) :
    (reloadApp running prefs).prefs.availableUpdate
      = (commitReadyUpdate prefs).availableUpdate := by
  simp only [reloadApp]
  cases h : (commitReadyUpdate prefs).currentVersionId with
  | none => rfl
  | some cv =>
      by_cases hr : running cv
      · simp [hr, cleanupVersions_availableUpdate]
      · by_cases hv : hasVersion (commitReadyUpdate prefs) cv = true <;> simp [hr, hv]

theorem applyOp_rank (prefs : ISavedPreferences) (op : DeployOp) :
    availableUpdateRank prefs.availableUpdate
      ≤ availableUpdateRank (applyOp prefs op).availableUpdate := by
  cases op with
  | download env =>
      simp only [applyOp]
      cases hau : prefs.availableUpdate with
      | none =>
          rw [downloadUpdate_guard_false env prefs (Or.inl hau)]
          simp [hau]
      | some au =>
          by_cases hs : au.state = UpdateState.Available
          · rcases downloadUpdate_available_shape env prefs au hau hs with h | h
            · rw [h]
              simp [hau]
            · rw [h]
              simp [availableUpdateRank, updateStateRank, hs]
          · rw [downloadUpdate_guard_false env prefs (Or.inr ⟨au, hau, hs⟩)]
            simp [hau]
  | extract =>
      simp only [applyOp]
      unfold extractUpdate
      cases hau : prefs.availableUpdate with
      | none => simp [hau]
      | some au =>
          by_cases hs : au.state = UpdateState.Pending
          · simp [hau, hs, availableUpdateRank, updateStateRank]
          · simp [hau, hs]
  | reload running =>
      simp only [applyOp]
      rw [reloadApp_availableUpdate running prefs]
      unfold commitReadyUpdate
      cases hau : prefs.availableUpdate with
      | none => simp [hau]
      | some au =>
          by_cases hs : au.state = UpdateState.Ready
          · simp [hau, hs, availableUpdateRank, updateStateRank]
          · simp [hau, hs]

/-- Erasing the entry stored under key `k` does not disturb the lookup of a
different key `k'`. -/
theorem find?_eraseP_ne (l : List IAvailableUpdate) (k k' : String) (h : k ≠ k') :
    (l.eraseP (fun u => u.versionId == k)).find? (fun u => u.versionId == k')
      = l.find? (fun u => u.versionId == k') := by
  induction l with
  | nil => rfl
  | cons a t ih =>
      by_cases ha : a.versionId = k
      · simp [List.eraseP_cons, ha, List.find?_cons, h, Ne.symm h]
      · by_cases hk' : a.versionId = k'
        · simp [List.eraseP_cons, ha, List.find?_cons, hk', h, Ne.symm h]
        · simp [List.eraseP_cons, ha, List.find?_cons, hk', ih]

/-- C9: `deleteVersionById` returns `true` for every `versionId`, including
one with no entry in `updates` (the snapshot-directory removal in
`_cleanSnapshotDir` swallows its own failure), and it never clears
`currentVersionId`, even when the deleted id is the installed one. -/
theorem deleteVersionById_returns_true_keeps_current
    (versionId : String) (prefs : ISavedPreferences) :
    (deleteVersionById versionId prefs).2 = true
      ∧ (deleteVersionById versionId prefs).1.currentVersionId = prefs.currentVersionId
      ∧ (deleteVersionById versionId prefs).1.updates
          = prefs.updates.eraseP (fun u => u.versionId == versionId) :=
  ⟨rfl, rfl, rfl⟩

/-- C1 (amended): diffing a manifest against itself as the baseline, over an
empty snapshot directory, classifies nothing as `toDownload`, everything as
`satisfiedByBaseline`, and reports `0` bytes already satisfied: the
`downloaded` counter of `_diffManifests` only counts entries whose files are
present on disk, and the directory is empty. -/
theorem diff_self_baseline_on_empty_dir (M bm : List ManifestFileEntry) (sz : Nat) :
    _diffManifests M (some M) (Except.ok bm) (Except.ok []) sz =
      { diffManifest := [], sameManifest := M, downloaded := 0 } := by
  simp [_diffManifests, List.filter_eq_self, List.filter_eq_nil_iff]

/-- C1 counterexample: for the one-entry manifest `[{href := "a.txt",
size := 5}]` diffed against itself over an empty directory, the claimed
`bytesAlreadySatisfied = Σ size(M) = 5` does not hold: the code returns
`downloaded = 0`. -/
theorem diff_self_baseline_downloaded_not_total :
    (_diffManifests [{ href := "a.txt", size := 5 }]
        (some [{ href := "a.txt", size := 5 }])
        (Except.ok []) (Except.ok []) 5).downloaded
      ≠ (([{ href := "a.txt", size := 5 }] : List ManifestFileEntry).map
          (fun e => e.size)).sum := by
  decide

/-- C5: when establishing the baseline fails — the fetch of the bundled
manifest rejects, or the directory listing inside the diff throws — the
`try`/`catch` of `_diffManifests` swallows the error and classifies the
whole `newManifest` as `toDownload` with an empty `sameManifest` and zero
bytes pre-satisfied. -/
theorem diffManifests_failure_fallback (M : List ManifestFileEntry)
    (old : Option (List ManifestFileEntry))
    (files : Except Unit (List String))
    (bf : Except Unit (List ManifestFileEntry)) (sz : Nat) :
    _diffManifests M old (Except.error ()) files sz
        = { diffManifest := M, sameManifest := [], downloaded := 0 }
      ∧ _diffManifests M old bf (Except.error ()) sz
        = { diffManifest := M, sameManifest := [], downloaded := 0 } := by
  constructor
  · cases files <;> rfl
  · cases bf <;> rfl

theorem downloadBatches_flatten (l acc : List ManifestFileEntry) :
    (downloadBatches 20 l acc).flatten = acc ++ l := by
  induction l generalizing acc with
  | nil =>
      by_cases h : acc.isEmpty
      · simp_all [downloadBatches, List.isEmpty_iff]
      · simp [downloadBatches, h]
  | cons e rest ih =>
      by_cases h : 20 ≤ acc.length
      · simp [downloadBatches, h, ih]
      · simp [downloadBatches, h, ih]

theorem downloadBatches_sizes (l acc : List ManifestFileEntry) (h : acc.length ≤ 20) :
    ((downloadBatches 20 l acc).all (fun b => b.length ≤ 20)) = true := by
  induction l generalizing acc with
  | nil =>
      by_cases hE : acc.isEmpty
      · simp [downloadBatches, hE]
      · simp [downloadBatches, hE, h]
  | cons e rest ih =>
      by_cases h20 : 20 ≤ acc.length
      · simp [downloadBatches, h20, h, ih [e] (by simp)]
      · exact ih (acc ++ [e]) (by simp; omega) ▸ by simp [downloadBatches, h20]

theorem downloadBatches_count (l acc : List ManifestFileEntry) (h : acc.length ≤ 20) :
    (downloadBatches 20 l acc).length = (acc.length + l.length + 19) / 20 := by
  induction l generalizing acc with
  | nil =>
      by_cases hE : acc.isEmpty
      · have : acc = [] := List.isEmpty_iff.mp hE
        simp [downloadBatches, hE, this]
      · have h1 : 1 ≤ acc.length := by
          cases acc
          · simp at hE
          · simp
        simp only [downloadBatches, hE, if_false, Bool.false_eq_true, List.length_cons,
          List.length_nil]
        omega
  | cons e rest ih =>
      by_cases h20 : 20 ≤ acc.length
      · have hacc : acc.length = 20 := le_antisymm h h20
        have hrec := ih [e] (by simp)
        simp only [downloadBatches, h20, if_true, List.length_cons, hrec]
        simp only [List.length_cons, List.length_nil, hacc]
        omega
      · have hrec := ih (acc ++ [e]) (by simp; omega)
        simp only [downloadBatches, h20, if_false, hrec]
        simp only [List.length_append, List.length_cons, List.length_nil]
        omega

/-- C3: for every manifest of `N` entries, the download loop of
`_downloadFilesFromManifest` (batch width 20) runs exactly `⌈N/20⌉`
sequential batches (in `Nat` arithmetic, `(N + 19) / 20`), each batch holds
at most 20 concurrent transfers, and concatenating the batches in order
yields the whole manifest — every batch is awaited to completion before the
next one starts. -/
theorem downloadFilesFromManifest_batching (manifest : List ManifestFileEntry) :
    (_downloadFilesFromManifest manifest).length = (manifest.length + 19) / 20
      ∧ ((_downloadFilesFromManifest manifest).all (fun b => b.length ≤ 20)) = true
      ∧ (_downloadFilesFromManifest manifest).flatten = manifest := by
  refine ⟨?_, ?_, ?_⟩
  · simpa using downloadBatches_count manifest [] (by simp)
  · exact downloadBatches_sizes manifest [] (by simp)
  · simpa using downloadBatches_flatten manifest []


/-- C2 (amended): along every sequence of `downloadUpdate`, `extractUpdate`
and `reloadApp` operations, the position of `availableUpdate` along
Available → Pending → Ready → (cleared) never decreases: these operations
never take an existing update from Pending or Ready back to Available.
(`checkForUpdate` is excluded: it overwrites `availableUpdate` with a fresh
record in state Available, see the counterexample.) -/
theorem ops_never_regress_availableUpdate_rank (prefs : ISavedPreferences)
    (ops : List DeployOp) :
    availableUpdateRank prefs.availableUpdate
      ≤ availableUpdateRank (runOps prefs ops).availableUpdate := by
  induction ops generalizing prefs with
  | nil => exact le_refl _
  | cons op ops ih =>
      exact le_trans (applyOp_rank prefs op) (ih (applyOp prefs op))

/-- C2 counterexample: with an existing `availableUpdate` in state Pending,
a successful `checkForUpdate` response carrying a new update overwrites it
with a record in state Available — the state field of `availableUpdate`
moves backward, contradicting the claim that no operation regresses it. -/
theorem checkForUpdate_regresses_pending_to_available :
    availableUpdateRank (checkForUpdate nowStamp respAvailable pendingPrefs).availableUpdate
      < availableUpdateRank pendingPrefs.availableUpdate := by
  decide

/-- C8: `downloadUpdate` called with no `availableUpdate`, or with one whose
state is not Available, returns `false` and leaves the preferences unchanged
for every environment — in particular the result does not depend on any
network or file operation. -/
theorem downloadUpdate_noop_when_not_available (env : DownloadEnv)
    (prefs : ISavedPreferences)
    (h : prefs.availableUpdate = none
        ∨ ∃ u, prefs.availableUpdate = some u ∧ u.state ≠ UpdateState.Available) :
    downloadUpdate env prefs = Except.ok (prefs, false) :=
  downloadUpdate_guard_false env prefs h

theorem downloadUpdate_noop_when_not_available_witness :
    downloadUpdate failEnv pendingPrefs = Except.ok (pendingPrefs, false) :=
  downloadUpdate_noop_when_not_available failEnv pendingPrefs
    (Or.inr ⟨pendingUpdate, rfl, by decide⟩)

theorem find?_mem_key (l : List IAvailableUpdate) (v : String) (u : IAvailableUpdate)
    (h : l.find? (fun w => w.versionId == v) = some u) : u ∈ l ∧ u.versionId = v := by
  refine ⟨List.mem_of_find?_eq_some h, ?_⟩
  have h2 := List.find?_some h
  simpa using h2

/-- Through the `cleanupStaleVersions` loop, the installed version survives
and the `currentVersionId` reference is kept, provided the installed version
is currently served by the webview or matches the current binary identity
(the latter with unique version ids, as JS object keys are). -/
theorem foldl_staleStep_preserves (running : String → Bool) (s : ISavedPreferences)
    (v : String) (u : IAvailableUpdate)
    (hcv : s.currentVersionId = some v)
    (hu : lookupUpdate s v = some u)
    (hside : running v = true
        ∨ (isUpdateForCurrentBinary s u = true
            ∧ (s.updates.map (fun w => w.versionId)).Nodup)) :
    (cleanupStaleVersions running s).currentVersionId = some v
      ∧ lookupUpdate (cleanupStaleVersions running s) v = some u := by
  have hmem : u ∈ s.updates ∧ u.versionId = v := find?_mem_key _ _ _ hu
  have main :=
    @List.foldlRecOn ISavedPreferences IAvailableUpdate
      (fun p => p.currentVersionId = some v
        ∧ lookupUpdate p v = some u
        ∧ p.binaryVersionName = s.binaryVersionName
        ∧ p.binaryVersionCode = s.binaryVersionCode)
      s.updates (staleStep running) s ⟨hcv, hu, rfl, rfl⟩
      (fun p hp u' hu' => by
        rcases hp with ⟨hp1, hp2, hp3, hp4⟩
        unfold staleStep
        by_cases hguard :
            (!(isUpdateForCurrentBinary p u') && !(running u'.versionId)) = true
        · rw [if_pos hguard]
          have hne : u'.versionId ≠ v := by
            rcases hside with hrun | ⟨hbin, hnd⟩
            · intro hEq
              rw [hEq, hrun] at hguard
              simp at hguard
            · intro hEq
              have hu'u : u' = u :=
                List.inj_on_of_nodup_map hnd hu' hmem.1 (by rw [hEq, hmem.2])
              rw [hu'u] at hguard
              unfold isUpdateForCurrentBinary at hguard
              rw [hp3, hp4] at hguard
              unfold isUpdateForCurrentBinary at hbin
              rw [hbin] at hguard
              simp at hguard
          have hinst : isUpdateCurrentlyInstalled p u' = false := by
            unfold isUpdateCurrentlyInstalled
            rw [hp1]
            simp [Ne.symm hne]
          rw [hinst]
          simp only [Bool.false_eq_true, if_false]
          refine ⟨hp1, ?_, hp3, hp4⟩
          unfold lookupUpdate at hp2 ⊢
          simp only [deleteVersionById]
          rw [find?_eraseP_ne _ _ _ hne]
          exact hp2
        · rw [if_neg hguard]
          exact ⟨hp1, hp2, hp3, hp4⟩)
  exact ⟨main.1, main.2.1⟩

/-- `cleanupVersions` keeps the `currentVersionId` reference and its stored
update whenever that version is served by the webview or matches the current
binary identity: the stale sweep skips it and the `lastUsed` eviction
explicitly filters out the currently-installed version. -/
theorem cleanupVersions_preserves_active (running : String → Bool)
    (s : ISavedPreferences) (v : String) (u : IAvailableUpdate)
    (hcv : s.currentVersionId = some v)
    (hu : lookupUpdate s v = some u)
    (hside : running v = true
        ∨ (isUpdateForCurrentBinary s u = true
            ∧ (s.updates.map (fun w => w.versionId)).Nodup)) :
    (cleanupVersions running s).currentVersionId = some v
      ∧ lookupUpdate (cleanupVersions running s) v = some u := by
  have h1 := foldl_staleStep_preserves running s v u hcv hu hside
  simp only [cleanupVersions]
  refine @List.foldlRecOn ISavedPreferences IAvailableUpdate
    (fun p => p.currentVersionId = some v ∧ lookupUpdate p v = some u)
    _ _ (cleanupStaleVersions running s) h1 ?_
  intro p hp u' hu'
  have hmem' : u' ∈ nonActiveUpdates (cleanupStaleVersions running s) := by
    have h2 := List.drop_subset _ _ hu'
    rw [List.mem_reverse] at h2
    exact (List.mem_insertionSort _).mp h2
  have hne : u'.versionId ≠ v := by
    have h3 := (List.mem_filter.mp hmem').2
    simp only [Bool.not_eq_eq_eq_not, Bool.not_true] at h3
    unfold isUpdateCurrentlyInstalled at h3
    rw [h1.1] at h3
    simp at h3
    exact fun hEq => h3 hEq.symm
  refine ⟨hp.1, ?_⟩
  unfold lookupUpdate at hp ⊢
  simp only [deleteVersionById]
  rw [find?_eraseP_ne _ _ _ hne]
  exact hp.2

theorem commitReadyUpdate_of_none (p : ISavedPreferences) (h : p.availableUpdate = none) :
    commitReadyUpdate p = p := by
  simp only [commitReadyUpdate, h]

/-- After the commit block, `reloadApp` keeps the committed
`currentVersionId`, its stored update, the `currentBuildId` and the
(cleared) `availableUpdate`: the only branch that touches the preferences
further is the already-running branch, whose `cleanupVersions` call skips
the version served by the webview. -/
theorem reloadApp_preserves_post (running : String → Bool) (p0 : ISavedPreferences)
    (v : String) (w : IAvailableUpdate)
    (hcv : (commitReadyUpdate p0).currentVersionId = some v)
    (hlk : lookupUpdate (commitReadyUpdate p0) v = some w) :
    (reloadApp running p0).prefs.currentVersionId = some v
      ∧ lookupUpdate (reloadApp running p0).prefs v = some w
      ∧ (reloadApp running p0).prefs.currentBuildId = (commitReadyUpdate p0).currentBuildId
      ∧ (reloadApp running p0).prefs.availableUpdate
          = (commitReadyUpdate p0).availableUpdate := by
  simp only [reloadApp, hcv]
  by_cases hr : running v = true
  · have hpres :=
      cleanupVersions_preserves_active running (commitReadyUpdate p0) v w hcv hlk (Or.inl hr)
    simp only [hr, reduceIte]
    exact ⟨hpres.1, hpres.2, cleanupVersions_currentBuildId running _,
      cleanupVersions_availableUpdate running _⟩
  · by_cases hv : hasVersion (commitReadyUpdate p0) v = true <;>
      simp [hr, hv, hcv, hlk]

theorem reloadApp_running_flags (running : String → Bool) (p : ISavedPreferences)
    (v : String)
    (hcv : (commitReadyUpdate p).currentVersionId = some v)
    (hr : running v = true) :
    (reloadApp running p).result = false ∧ (reloadApp running p).redirected = false := by
  simp only [reloadApp, hcv, hr]
  simp

theorem cleanupStaleVersions_noop (running : String → Bool) (s : ISavedPreferences)
    (hbin : ∀ w ∈ s.updates, isUpdateForCurrentBinary s w = true) :
    cleanupStaleVersions running s = s := by
  unfold cleanupStaleVersions
  exact @List.foldlRecOn ISavedPreferences IAvailableUpdate (fun p => p = s)
    s.updates (staleStep running) s rfl
    (fun p hp u hu => by
      subst hp
      unfold staleStep
      rw [hbin u hu]
      simp)

/-- C6 (amended): `cleanupVersions` never deletes the currently-installed
version — the one referenced by `currentVersionId` — provided that version
matches the current binary identity (with version ids unique, as JS object
keys are) or is the version currently served by the webview; in particular
the `lastUsed`-rank eviction never deletes it regardless of how old its
`lastUsed` is.  The unrestricted original claim fails: a binary-stale
installed version not served by the webview is deleted by the
`cleanupStaleVersions` sweep (see the counterexample). -/
theorem cleanupVersions_preserves_active_version (running : String → Bool)
    (prefs : ISavedPreferences) (v : String) (u : IAvailableUpdate)
    (hcv : prefs.currentVersionId = some v)
    (hu : lookupUpdate prefs v = some u)
    (hside : running v = true
        ∨ (isUpdateForCurrentBinary prefs u = true
            ∧ (prefs.updates.map (fun w => w.versionId)).Nodup)) :
    (cleanupVersions running prefs).currentVersionId = some v
      ∧ lookupUpdate (cleanupVersions running prefs) v = some u :=
  cleanupVersions_preserves_active running prefs v u hcv hu hside

theorem cleanupVersions_preserves_active_version_witness :
    (cleanupVersions (fun _ => false) activePrefs).currentVersionId
        = some matchedActive.versionId
      ∧ lookupUpdate (cleanupVersions (fun _ => false) activePrefs) matchedActive.versionId
        = some matchedActive :=
  cleanupVersions_preserves_active_version (fun _ => false) activePrefs
    matchedActive.versionId matchedActive rfl (by decide)
    (Or.inr ⟨by decide, by decide⟩)

/-- C6 counterexample: with the device binary upgraded to 2.0.0, the
installed version `vS` (built for binary 1.0.0, not served by the webview)
is removed from `updates` by `cleanupVersions` and the `currentVersionId`
reference is cleared — the currently-installed version is deleted despite
being current, refuting the unconditional claim. -/
theorem cleanupVersions_deletes_stale_active_version :
    stalePrefs.currentVersionId = some staleInstalledUpdate.versionId
      ∧ lookupUpdate stalePrefs staleInstalledUpdate.versionId = some staleInstalledUpdate
      ∧ (cleanupVersions (fun _ => false) stalePrefs).currentVersionId = none
      ∧ lookupUpdate (cleanupVersions (fun _ => false) stalePrefs)
          staleInstalledUpdate.versionId = none := by
  decide

/-- C10: `reloadApp` returns `true` exactly when it redirects the webview:
precisely when, after the Ready-state commit block, `currentVersionId` is
set, the webview is not already serving it, and it is present in `updates`;
in every other case it returns `false` without redirecting and fires the
ready signal instead. -/
theorem reloadApp_result_iff_redirect (running : String → Bool)
    (prefs : ISavedPreferences) :
    (reloadApp running prefs).result
        = (match (commitReadyUpdate prefs).currentVersionId with
            | some cv => !(running cv) && hasVersion (commitReadyUpdate prefs) cv
            | none => false)
      ∧ (reloadApp running prefs).redirected = (reloadApp running prefs).result
      ∧ ((reloadApp running prefs).result || (reloadApp running prefs).readyFired)
          = true := by
  simp only [reloadApp]
  cases h : (commitReadyUpdate prefs).currentVersionId with
  | none => simp
  | some cv =>
      by_cases hr : running cv = true
      · simp [hr]
      · by_cases hv : hasVersion (commitReadyUpdate prefs) cv = true <;> simp [hr, hv]

/-- C4: `reloadApp` commits the pending update exactly once.  With
`availableUpdate` in state Ready (and its record stored in
`updates[versionId]`, as `extractUpdate` establishes), after `reloadApp`
the committed `currentVersionId`/`currentBuildId` equal the update's ids,
`availableUpdate` is cleared, and `updates[versionId]` still holds the
record.  A subsequent `reloadApp` — no new `availableUpdate`, webview
already serving `currentVersionId` (`running'`) — returns `false`, does not
redirect, and commits nothing: the committed fields are all unchanged. -/
theorem reloadApp_commits_exactly_once (running running' : String → Bool)
    (prefs : ISavedPreferences) (u : IAvailableUpdate)
    (h1 : prefs.availableUpdate = some u)
    (h2 : u.state = UpdateState.Ready)
    (h3 : lookupUpdate prefs u.versionId = some u)
    (h4 : running' u.versionId = true) :
    (reloadApp running prefs).prefs.currentVersionId = some u.versionId
      ∧ (reloadApp running prefs).prefs.currentBuildId = some u.buildId
      ∧ (reloadApp running prefs).prefs.availableUpdate = none
      ∧ lookupUpdate (reloadApp running prefs).prefs u.versionId = some u
      ∧ (reloadApp running' (reloadApp running prefs).prefs).result = false
      ∧ (reloadApp running' (reloadApp running prefs).prefs).redirected = false
      ∧ (reloadApp running' (reloadApp running prefs).prefs).prefs.currentVersionId
          = some u.versionId
      ∧ (reloadApp running' (reloadApp running prefs).prefs).prefs.currentBuildId
          = some u.buildId
      ∧ (reloadApp running' (reloadApp running prefs).prefs).prefs.availableUpdate
          = none := by
  have hcommit : commitReadyUpdate prefs =
      { prefs with currentVersionId := some u.versionId,
                   currentBuildId := some u.buildId,
                   availableUpdate := none } := by
    simp only [commitReadyUpdate, h1, h2, reduceIte]
  have hcv1 : (commitReadyUpdate prefs).currentVersionId = some u.versionId := by
    rw [hcommit]
  have hlk1 : lookupUpdate (commitReadyUpdate prefs) u.versionId = some u := by
    rw [hcommit]
    exact h3
  have hfirst := reloadApp_preserves_post running prefs u.versionId u hcv1 hlk1
  obtain ⟨f1, f2, f3, f4⟩ := hfirst
  rw [hcommit] at f3 f4
  have hcommit2 : commitReadyUpdate (reloadApp running prefs).prefs
      = (reloadApp running prefs).prefs :=
    commitReadyUpdate_of_none _ f4
  have hcv2 : (commitReadyUpdate (reloadApp running prefs).prefs).currentVersionId
      = some u.versionId := by rw [hcommit2]; exact f1
  have hlk2 : lookupUpdate (commitReadyUpdate (reloadApp running prefs).prefs) u.versionId
      = some u := by rw [hcommit2]; exact f2
  have hsecond := reloadApp_preserves_post running' (reloadApp running prefs).prefs
    u.versionId u hcv2 hlk2
  obtain ⟨g1, g2, g3, g4⟩ := hsecond
  rw [hcommit2] at g3 g4
  have hres := reloadApp_running_flags running' (reloadApp running prefs).prefs
    u.versionId hcv2 h4
  exact ⟨f1, f3, f4, f2, hres.1, hres.2, g1, g3 ▸ f3, g4 ▸ f4⟩

theorem reloadApp_commits_exactly_once_witness :
    (reloadApp (fun _ => false) readyPrefs).prefs.currentVersionId
        = some readyUpdate.versionId
      ∧ (reloadApp (fun _ => false) readyPrefs).prefs.currentBuildId
        = some readyUpdate.buildId
      ∧ (reloadApp (fun _ => false) readyPrefs).prefs.availableUpdate = none
      ∧ lookupUpdate (reloadApp (fun _ => false) readyPrefs).prefs readyUpdate.versionId
        = some readyUpdate
      ∧ (reloadApp (fun _ => true) (reloadApp (fun _ => false) readyPrefs).prefs).result
        = false
      ∧ (reloadApp (fun _ => true) (reloadApp (fun _ => false) readyPrefs).prefs).redirected
        = false
      ∧ (reloadApp (fun _ => true)
          (reloadApp (fun _ => false) readyPrefs).prefs).prefs.currentVersionId
        = some readyUpdate.versionId
      ∧ (reloadApp (fun _ => true)
          (reloadApp (fun _ => false) readyPrefs).prefs).prefs.currentBuildId
        = some readyUpdate.buildId
      ∧ (reloadApp (fun _ => true)
          (reloadApp (fun _ => false) readyPrefs).prefs).prefs.availableUpdate
        = none :=
  reloadApp_commits_exactly_once (fun _ => false) (fun _ => true) readyPrefs readyUpdate
    rfl rfl (by decide) rfl

theorem list_length_three {α : Type} (l : List α) (h : l.length = 3) :
    ∃ a b c, l = [a, b, c] := by
  match l, h with
  | [a, b, c], _ => exact ⟨a, b, c, rfl⟩

/-- With unique version ids (JS object keys), erasing the entry stored
under key `k` is the same as filtering that key out. -/
theorem eraseP_key_eq_filter (l : List IAvailableUpdate) (k : String)
    (hnd : (l.map (fun w => w.versionId)).Nodup) :
    l.eraseP (fun w => w.versionId == k) = l.filter (fun w => !(w.versionId == k)) := by
  induction l with
  | nil => rfl
  | cons a t ih =>
      rw [List.map_cons, List.nodup_cons] at hnd
      by_cases ha : a.versionId = k
      · have ht : ∀ w ∈ t, ¬(w.versionId = k) := by
          intro w hw hwk
          exact hnd.1 (List.mem_map.mpr ⟨w, hw, by rw [hwk, ha]⟩)
        simp only [List.eraseP_cons, List.filter_cons, ha, beq_self_eq_true, cond_true,
          Bool.not_true, Bool.false_eq_true, if_false]
        symm
        rw [List.filter_eq_self]
        intro w hw
        simpa using ht w hw
      · simp only [List.eraseP_cons, List.filter_cons]
        have ha' : (a.versionId == k) = false := by simpa using ha
        rw [ha']
        simp only [cond_false, Bool.not_false, if_true, ih hnd.2]

/-- C7: with `maxVersions = 2`, three non-active installed updates with
pairwise distinct `lastUsed`, every stored update matching the current
binary (no binary-stale versions) and unique version ids, `cleanupVersions`
deletes exactly the least recently used of the three non-active updates:
the two most recently used remain, together with the currently-active
version — the eviction sorts the non-active updates by `lastUsed`
descending and deletes everything beyond the first `maxVersions`. -/
theorem cleanupVersions_evicts_least_recently_used (running : String → Bool)
    (prefs : ISavedPreferences)
    (hmax : prefs.maxVersions = 2)
    (hbin : ∀ w ∈ prefs.updates, isUpdateForCurrentBinary prefs w = true)
    (hnd : (prefs.updates.map (fun w => w.versionId)).Nodup)
    (hlen : (nonActiveUpdates prefs).length = 3)
    (hdist : (nonActiveUpdates prefs).Pairwise (fun a b => a.lastUsed ≠ b.lastUsed)) :
    ∃ m, m ∈ nonActiveUpdates prefs
      ∧ (∀ w ∈ nonActiveUpdates prefs, w = m ∨ m.lastUsed < w.lastUsed)
      ∧ (cleanupVersions running prefs).updates
          = prefs.updates.filter (fun w => !(w.versionId == m.versionId)) := by
  have hstale := cleanupStaleVersions_noop running prefs hbin
  have hperm := List.perm_insertionSort
    (fun a b : IAvailableUpdate => a.lastUsed ≤ b.lastUsed) (nonActiveUpdates prefs)
  have hsorted := List.sorted_insertionSort
    (fun a b : IAvailableUpdate => a.lastUsed ≤ b.lastUsed) (nonActiveUpdates prefs)
  have hdist' := (List.Perm.pairwise_iff (fun h => Ne.symm h) hperm).mpr hdist
  obtain ⟨a, b, c, hLeq⟩ := list_length_three
    (List.insertionSort (fun a b : IAvailableUpdate => a.lastUsed ≤ b.lastUsed)
      (nonActiveUpdates prefs))
    ((List.length_insertionSort
      (fun a b : IAvailableUpdate => a.lastUsed ≤ b.lastUsed)
      (nonActiveUpdates prefs)).trans hlen)
  rw [hLeq] at hperm hsorted hdist'
  simp only [List.sorted_cons, List.mem_cons, List.mem_singleton] at hsorted
  simp only [List.pairwise_cons, List.mem_cons, List.mem_singleton] at hdist'
  have hab : a.lastUsed < b.lastUsed :=
    lt_of_le_of_ne (hsorted.1 b (Or.inl rfl)) (hdist'.1 b (Or.inl rfl))
  have hac : a.lastUsed < c.lastUsed :=
    lt_of_le_of_ne (hsorted.1 c (Or.inr (Or.inl rfl))) (hdist'.1 c (Or.inr (Or.inl rfl)))
  refine ⟨a, hperm.subset (List.mem_cons_self a _), ?_, ?_⟩
  · intro w hw
    have hw3 : w = a ∨ w = b ∨ w = c := by
      have hmem := hperm.mem_iff.mpr hw
      simpa using hmem
    rcases hw3 with h | h | h
    · exact Or.inl h
    · exact Or.inr (h ▸ hab)
    · exact Or.inr (h ▸ hac)
  · simp only [cleanupVersions]
    rw [hstale, hmax, hLeq]
    have hdrop : (([a, b, c] : List IAvailableUpdate).reverse).drop 2 = [a] := rfl
    rw [hdrop]
    simp only [List.foldl_cons, List.foldl_nil, deleteVersionById]
    exact eraseP_key_eq_filter prefs.updates a.versionId hnd

theorem cleanupVersions_evicts_least_recently_used_witness :
    ∃ m, m ∈ nonActiveUpdates evictPrefs
      ∧ (∀ w ∈ nonActiveUpdates evictPrefs, w = m ∨ m.lastUsed < w.lastUsed)
      ∧ (cleanupVersions (fun _ => false) evictPrefs).updates
          = evictPrefs.updates.filter (fun w => !(w.versionId == m.versionId)) :=
  cleanupVersions_evicts_least_recently_used (fun _ => false) evictPrefs rfl
    (by decide) (by decide) (by decide) (by decide)

end IonicDeploy
